import Mathlib

/- Verification development for the pixyz shape-bookkeeping containers
(src/pixyz/distributions/sample_dict.py, v2 SampleDict) and the invertible
flow operations (src/pixyz/flows/operations.py).

Tensors in the SampleDict model carry only what the container inspects: a
shape (list of dimension extents) plus an opaque payload standing for the
underlying storage.  Unsqueezing a tensor (indexing with leading None, i.e.
tensor[(None,)*n]) prepends n singleton dimensions and keeps the payload. -/

deriving instance DecidableEq for Except

/-- A tensor as seen by SampleDict: its shape and an opaque payload that
stands for the underlying storage (torch operations used by SampleDict never
read the elements, only the shape). -/
structure STensor where
  shape : List Nat
  data : Nat
deriving DecidableEq, Repr

/-- Prepend n singleton dimensions, the effect of tensor[(None,) * n]. -/
def STensor.unsqueezeLead (n : Nat) (t : STensor) : STensor :=
  { shape := List.replicate n 1 ++ t.shape, data := t.data }

/-- The v2 SampleDict: an insertion-ordered mapping from variable names to
tensors together with the shared _sample_shape. -/
structure SampleDict where
  entries : List (String × STensor)
  sample_shape : List Nat
deriving DecidableEq, Repr

/-- A value passed into SampleDict mutation paths: either already a torch
tensor, or a plain Python number, which torch.tensor coerces to a
0-dimensional float tensor (the payload records the number). -/
inductive PyValue where
  | tensor (t : STensor)
  | scalar (x : Nat)
deriving DecidableEq, Repr

/-- value if torch.is_tensor(value) else torch.tensor(value, dtype=torch.float) -/
def PyValue.toTensor : PyValue → STensor
  | .tensor t => t
  | .scalar x => { shape := [], data := x }

/-- Python slice lst[:n] . -/
def pySliceTo (l : List Nat) (n : Nat) : List Nat := l.take n

/-- Python slice lst[-n:] (note lst[-0:] is the whole list). -/
def pySliceLast (l : List Nat) (n : Nat) : List Nat :=
  if n = 0 then l else l.drop (l.length - n)

/-- Python slice lst[:-n] (note lst[:-0] is the empty list). -/
def pySliceDropLast (l : List Nat) (n : Nat) : List Nat :=
  if n = 0 then [] else l.take (l.length - n)

/-- SampleDict.is_broadcastable_to: zip the two shapes reversed and require
each source dim to be 1 or equal to the target dim. -/
def is_broadcastable_to (from_shape to_shape : List Nat) : Bool :=
  (from_shape.reverse.zip to_shape.reverse).all fun p => p.1 == 1 || p.1 == p.2

/-- dict.__setitem__ on the underlying dict: overwrite in place when the key
exists (keeping its position), otherwise append the new binding. -/
def storeEntry : List (String × STensor) → String → STensor → List (String × STensor)
  | [], k, v => [(k, v)]
  | (k0, v0) :: rest, k, v =>
    if k0 = k then (k, v) :: rest else (k0, v0) :: storeEntry rest k v

/-- SampleDict.__setitem__: coerce the value to a tensor, check that its
leading dims (truncated to the sample_shape length) broadcast to
sample_shape, raise ValueError otherwise (the f-string detail of the
message is elided). -/
def SampleDict.setitem (d : SampleDict) (var_name : String) (value : PyValue) :
    Except String SampleDict :=
  let t := value.toTensor
  if is_broadcastable_to (pySliceTo t.shape d.sample_shape.length) d.sample_shape then
    .ok { d with entries := storeEntry d.entries var_name t }
  else
    .error ("the sample shape of value does not match")

/-- SampleDict.__init__ on a non-SampleDict argument: record the given
sample_shape, then assign every (key, value) pair through __setitem__
(kwargs are chained after variables, so a single item list models both). -/
def mkSampleDictGo (items : List (String × PyValue)) (d : SampleDict) :
    Except String SampleDict :=
  match items with
  | [] => .ok d
  | (k, v) :: rest => do
    let d1 ← d.setitem k v
    mkSampleDictGo rest d1

/-- SampleDict(variables, sample_shape) for a plain mapping / iterable of
pairs. -/
def mkSampleDict (items : List (String × PyValue)) (sample_shape : List Nat) :
    Except String SampleDict :=
  mkSampleDictGo items { entries := [], sample_shape := sample_shape }

/-- Association-list lookup used to observe a stored tensor. -/
def SampleDict.lookup (d : SampleDict) (k : String) : Option STensor :=
  List.lookup k d.entries

/-- SampleDict.features_dims: (len(self._sample_shape), self[var_name].ndim),
none when the key is absent (Python KeyError). -/
def SampleDict.features_dims (d : SampleDict) (var_name : String) : Option (Nat × Nat) :=
  (d.lookup var_name).map fun t => (d.sample_shape.length, t.shape.length)

/-- Python slice lst[a:b]. -/
def pySlice (l : List Nat) (a b : Nat) : List Nat := (l.take b).drop a

/-- SampleDict.features_shape: self[var_name].shape[slice(*self.features_dims(var_name))]. -/
def SampleDict.features_shape (d : SampleDict) (var_name : String) : Option (List Nat) :=
  (d.lookup var_name).map fun t => pySlice t.shape d.sample_shape.length t.shape.length

/-- Modelled from the spec sentence behind claim C1 (the code is the
authority; this definition exists only to compare the slice bounds of the spec
with the implementation): dimensions after len(sample_shape) and before the
last dimension, i.e. shape[len(sample_shape) : ndim - 1]. -/
def SampleDict.features_shape_claimed (d : SampleDict) (var_name : String) : Option (List Nat) :=
  (d.lookup var_name).map fun t => pySlice t.shape d.sample_shape.length (t.shape.length - 1)

/-- SampleDict.batch_dim: len(self._sample_shape) - 1 as a Python int
(may be negative). -/
def SampleDict.batch_dim (d : SampleDict) : Int :=
  (d.sample_shape.length : Int) - 1

/-- Python list indexing lst[i] with negative-index wrapping; none models
IndexError. -/
def pyGet (l : List Nat) (i : Int) : Option Nat :=
  if 0 ≤ i then l.get? i.toNat
  else if i.natAbs ≤ l.length then l.get? (l.length - i.natAbs)
  else none

/-- SampleDict.n_batch: self[var_name].shape[self.batch_dim]. -/
def SampleDict.n_batch (d : SampleDict) (var_name : String) : Option Nat :=
  (d.lookup var_name).bind fun t => pyGet t.shape d.batch_dim

/-- The argument of SampleDict.update: either another SampleDict or a plain
mapping / iterable of pairs (the kwargs are chained behind the items, so a
single list models both). -/
inductive UpdateArg where
  | sd (v : SampleDict)
  | plain (items : List (String × PyValue))
deriving DecidableEq

/-- The per-item loop of SampleDict.update.  Python mutates self in place
and an assert failure aborts mid-loop, so the loop returns the (possibly
partial) state alongside the error: (some msg, d) models an AssertionError
raised with state d already reached. -/
def updateItems (ndim_target_s : Nat) (n_unsqueeze : Int) :
    List (String × PyValue) → SampleDict → Option String × SampleDict
  | [], d => (none, d)
  | (k, v) :: rest, d =>
    let tensor := v.toTensor
    if is_broadcastable_to (pySliceTo tensor.shape ndim_target_s)
        (pySliceLast d.sample_shape ndim_target_s) then
      let stored := if 0 ≤ n_unsqueeze then tensor.unsqueezeLead n_unsqueeze.toNat else tensor
      updateItems ndim_target_s n_unsqueeze rest
        { d with entries := storeEntry d.entries k stored }
    else
      (some ("the sample shape of a new item does not match"), d)

/-- SampleDict.update: compute the incoming sample_shape, unsqueeze every
existing entry and recompute self._sample_shape when the incoming
sample_shape is deeper, then merge the incoming items one by one. -/
def SampleDict.update (d : SampleDict) (arg : UpdateArg) : Option String × SampleDict :=
  let target_sample_shape := match arg with
    | .sd v => v.sample_shape
    | .plain _ => []
  let ndim_target_s : Nat := target_sample_shape.length
  let n_unsqueeze : Int := (d.sample_shape.length : Int) - (ndim_target_s : Int)
  let d1 :=
    if n_unsqueeze < 0 then
      { entries := d.entries.map fun kv => (kv.1, kv.2.unsqueezeLead (-n_unsqueeze).toNat),
        sample_shape :=
          if d.sample_shape ≠ [] then
            pySliceDropLast target_sample_shape d.sample_shape.length ++ d.sample_shape
          else target_sample_shape }
    else d
  let items := match arg with
    | .sd v => v.entries.map fun kv => (kv.1, PyValue.tensor kv.2)
    | .plain l => l
  updateItems ndim_target_s n_unsqueeze items d1

/-- SampleDict.from_variables: SampleDict over the entries whose key is in
var, constructed with self.sample_shape. -/
def SampleDict.from_variables (d : SampleDict) (var : List String) :
    Except String SampleDict :=
  mkSampleDict
    ((d.entries.filter fun kv => var.contains kv.1).map fun kv => (kv.1, PyValue.tensor kv.2))
    d.sample_shape

/-- SampleDict.replaced_dict: rename keys through key_diff (keys not in
key_diff pass through), constructed with self.sample_shape. -/
def SampleDict.replaced_dict (d : SampleDict) (key_diff : List (String × String)) :
    Except String SampleDict :=
  mkSampleDict
    (d.entries.map fun kv =>
      ((List.lookup kv.1 key_diff).getD kv.1, PyValue.tensor kv.2))
    d.sample_shape

/-- SampleDict.split: two SampleDicts built from the entries inside / outside
var; the source constructs both without passing sample_shape, so both get
the default sample_shape (). -/
def SampleDict.split (d : SampleDict) (var : List String) :
    Except String (SampleDict × SampleDict) := do
  let extracted_sample ← mkSampleDict
    ((d.entries.filter fun kv => var.contains kv.1).map fun kv => (kv.1, PyValue.tensor kv.2)) []
  let remain_sample ← mkSampleDict
    ((d.entries.filter fun kv => !var.contains kv.1).map fun kv => (kv.1, PyValue.tensor kv.2)) []
  pure (extracted_sample, remain_sample)

/- Model of CPython dispatch for SampleDict.__eq__ / __ne__.  An operand is
either a SampleDict instance (with an object id standing for `is`identity)
or the proxy object returned by super() inside a SampleDict method; a super
proxy is a distinct object and not a SampleDict instance. -/

/-- A Python operand reaching the == protocol. -/
inductive PyOperand where
  | sd (id : Nat) (d : SampleDict)
  | superOf (id : Nat) (d : SampleDict)

/-- isinstance(target, SampleDict). -/
def PyOperand.isSampleDictInst : PyOperand → Bool
  | .sd _ _ => true
  | .superOf _ _ => false

/-- Python object identity (`a is b`): a super proxy is never the same
object as a SampleDict instance. -/
def PyOperand.identical : PyOperand → PyOperand → Bool
  | .sd i _, .sd j _ => i == j
  | .superOf i _, .superOf j _ => i == j
  | _, _ => false

/-- The SampleDict value underlying an operand. -/
def PyOperand.dict : PyOperand → SampleDict
  | .sd _ d => d
  | .superOf _ d => d

/-- The object id of an operand. -/
def PyOperand.oid : PyOperand → Nat
  | .sd i _ => i
  | .superOf i _ => i

/-- object.__eq__: True when the operands are the same object, otherwise
NotImplemented (modelled as none). -/
def object_eq (a b : PyOperand) : Option Bool :=
  if a.identical b then some true else none

/-- SampleDict._check_dict_type: ValueError unless the target is a
SampleDict instance (the type detail of the message is elided). -/
def check_dict_type (target : PyOperand) : Except String Unit :=
  if target.isSampleDictInst then .ok ()
  else .error ("sample_dict is downgraded.")

/-- The body of SampleDict.__eq__(self, other) under CPython dispatch:
_check_dict_type(other); then `super() == other` evaluates object.__eq__ on
the super proxy (the super type adds no __eq__), whose NotImplemented sends
the reflected comparison to SampleDict.__eq__(other, proxy); the fuel bounds
that mutual recursion (depth 2 suffices on every path). -/
def sampleDictEqBody : Nat → PyOperand → PyOperand → Except String Bool
  | 0, _, _ => .error ("RecursionError")
  | fuel + 1, self, other => do
    let _ ← check_dict_type other
    let base ←
      match object_eq (PyOperand.superOf self.oid self.dict) other with
      | some b => pure b
      | none => sampleDictEqBody fuel other (PyOperand.superOf self.oid self.dict)
    if base then
      pure (decide (self.dict.sample_shape = other.dict.sample_shape))
    else
      pure false

/-- a == b for two SampleDict operands: both sides have type SampleDict, so
the protocol calls SampleDict.__eq__(a, b) directly. -/
def py_eq (a b : PyOperand) : Except String Bool :=
  sampleDictEqBody 2 a b

/-- a != b: SampleDict.__ne__ returns `not self == other`, so an exception
from __eq__ propagates. -/
def py_ne (a b : PyOperand) : Except String Bool := do
  let r ← py_eq a b
  pure (!r)

/- Helper lemmas about the association-list primitives. -/

theorem lookup_storeEntry_ne (l : List (String × STensor)) (k k0 : String) (t : STensor)
    (h : k ≠ k0) : List.lookup k (storeEntry l k0 t) = List.lookup k l := by
  have hb : (k == k0) = false := beq_eq_false_iff_ne.mpr h
  induction l with
  | nil => simp [storeEntry, List.lookup, hb]
  | cons hd tl ih =>
    obtain ⟨k1, v1⟩ := hd
    by_cases hk : k1 = k0
    · subst hk
      simp [storeEntry, List.lookup, hb]
    · simp only [storeEntry, if_neg hk]
      by_cases hkk : k = k1
      · subst hkk
        simp [List.lookup]
      · have hb1 : (k == k1) = false := beq_eq_false_iff_ne.mpr hkk
        simp [List.lookup, hb1, ih]

theorem lookup_map_unsqueeze (l : List (String × STensor)) (k : String) (n : Nat) :
    List.lookup k (l.map fun kv => (kv.1, kv.2.unsqueezeLead n)) =
      (List.lookup k l).map (STensor.unsqueezeLead n) := by
  induction l with
  | nil => simp [List.lookup]
  | cons hd tl ih =>
    obtain ⟨k1, v1⟩ := hd
    by_cases hkk : k = k1
    · subst hkk
      simp [List.lookup]
    · have hb1 : (k == k1) = false := beq_eq_false_iff_ne.mpr hkk
      simp [List.lookup, hb1, ih]

theorem updateItems_sample_shape (nds : Nat) (nu : Int) (items : List (String × PyValue))
    (d : SampleDict) : (updateItems nds nu items d).2.sample_shape = d.sample_shape := by
  induction items generalizing d with
  | nil => rfl
  | cons hd tl ih =>
    obtain ⟨k, v⟩ := hd
    simp only [updateItems]
    split
    · exact ih _
    · rfl

theorem updateItems_lookup_notmem (nds : Nat) (nu : Int) (items : List (String × PyValue))
    (d : SampleDict) (k : String) (h : k ∉ items.map Prod.fst) :
    (updateItems nds nu items d).2.lookup k = d.lookup k := by
  induction items generalizing d with
  | nil => rfl
  | cons hd tl ih =>
    obtain ⟨k0, v⟩ := hd
    simp only [List.map_cons, List.mem_cons, not_or] at h
    simp only [updateItems]
    split
    · rw [ih _ h.2]
      show List.lookup k (storeEntry d.entries k0 _) = _
      rw [lookup_storeEntry_ne d.entries k k0 _ h.1]
      rfl
    · rfl

/-- Shared characterization of the state reached by SampleDict.update when
the incoming SampleDict has a strictly deeper sample_shape, whether or not
the per-item assert later fails: sample_shape is already recomputed and
every entry whose key is not among the incoming keys is already unsqueezed. -/
theorem update_deeper_state (d v : SampleDict)
    (hdeep : d.sample_shape.length < v.sample_shape.length) :
    (d.update (UpdateArg.sd v)).2.sample_shape =
      (if d.sample_shape = [] then v.sample_shape
       else v.sample_shape.take (v.sample_shape.length - d.sample_shape.length)
         ++ d.sample_shape) ∧
    ∀ k t, k ∉ v.entries.map Prod.fst → d.lookup k = some t →
      (d.update (UpdateArg.sd v)).2.lookup k =
        some (t.unsqueezeLead (v.sample_shape.length - d.sample_shape.length)) := by
  have hneg : ((d.sample_shape.length : Int) - (v.sample_shape.length : Int)) < 0 := by
    omega
  have htn : (-((d.sample_shape.length : Int) - (v.sample_shape.length : Int))).toNat =
      v.sample_shape.length - d.sample_shape.length := by
    omega
  constructor
  · rw [SampleDict.update]
    simp only [if_pos hneg]
    rw [updateItems_sample_shape]
    by_cases hss : d.sample_shape = []
    · simp [hss]
    · have hlen : d.sample_shape.length ≠ 0 := by
        simpa [List.length_eq_zero] using hss
      simp [hss, pySliceDropLast, hlen]
  · intro k t hk hlk
    rw [SampleDict.update]
    simp only [if_pos hneg]
    rw [updateItems_lookup_notmem _ _ _ _ _ (by simpa using hk)]
    have hlk2 : List.lookup k d.entries = some t := hlk
    simp only [SampleDict.lookup]
    rw [lookup_map_unsqueeze, htn, hlk2]
    rfl

/-- C1: on the code, features_shape(k) keeps every dimension after the
sample_shape prefix, INCLUDING the last one; the claimed upper bound
ndim - 1 disagrees already on a rank-1 entry with empty sample_shape. -/
theorem spec_c1_counterexample :
    (⟨[("x", ⟨[5], 0⟩)], []⟩ : SampleDict).features_shape ("x") = some [5] ∧
    (⟨[("x", ⟨[5], 0⟩)], []⟩ : SampleDict).features_shape_claimed ("x") = some [] ∧
    (⟨[("x", ⟨[5], 0⟩)], []⟩ : SampleDict).features_shape ("x") ≠
      (⟨[("x", ⟨[5], 0⟩)], []⟩ : SampleDict).features_shape_claimed ("x") := by
  decide

/-- C1 (amended): for every key k present in d, features_shape(k) returns
exactly the dimensions of d[k] situated after the first len(d.sample_shape)
dimensions, through the last dimension inclusive:
d[k].shape[len(d.sample_shape) : d[k].ndim]. -/
theorem spec_c1_amended (d : SampleDict) (k : String) (t : STensor)
    (h : d.lookup k = some t) :
    d.features_shape k = some (t.shape.drop d.sample_shape.length) := by
  simp [SampleDict.features_shape, h, pySlice, List.take_length]

theorem spec_c1_amended_witness :
    (⟨[("x", ⟨[3,4,5], 0⟩)], [3]⟩ : SampleDict).features_shape ("x") = some [4,5] := by
  have h := spec_c1_amended ⟨[("x", ⟨[3,4,5], 0⟩)], [3]⟩ ("x") ⟨[3,4,5], 0⟩ (by decide)
  simpa using h

/-- C2: merging a SampleDict whose sample_shape is deeper by n recomputes
self.sample_shape as the incoming leading extension concatenated with
the own trailing sample_shape of self (or the incoming sample_shape when it
was empty), and every pre-existing entry not overwritten by the incoming
dict gains n leading singleton dimensions. -/
theorem spec_c2 (d v r : SampleDict)
    (hdeep : d.sample_shape.length < v.sample_shape.length)
    (hok : d.update (UpdateArg.sd v) = (none, r)) :
    r.sample_shape =
      (if d.sample_shape = [] then v.sample_shape
       else v.sample_shape.take (v.sample_shape.length - d.sample_shape.length)
         ++ d.sample_shape) ∧
    ∀ k t, k ∉ v.entries.map Prod.fst → d.lookup k = some t →
      r.lookup k =
        some (t.unsqueezeLead (v.sample_shape.length - d.sample_shape.length)) := by
  have h := update_deeper_state d v hdeep
  rw [hok] at h
  exact h

/-- C2 witness: the spec scenario, with the pre-existing entry under a key
the incoming dict does not overwrite: a () dict holding y of shape (2,3,4)
merged with a (3,4) dict holding x of shape (3,4,2,3,4) ends with
sample_shape (3,4) and y of shape (1,1,2,3,4). -/
theorem spec_c2_witness :
    (⟨[("y", ⟨[2,3,4], 0⟩)], []⟩ : SampleDict).update
        (UpdateArg.sd ⟨[("x", ⟨[3,4,2,3,4], 1⟩)], [3,4]⟩) =
      (none, ⟨[("y", ⟨[1,1,2,3,4], 0⟩), ("x", ⟨[3,4,2,3,4], 1⟩)], [3,4]⟩) ∧
    (⟨[("y", ⟨[1,1,2,3,4], 0⟩), ("x", ⟨[3,4,2,3,4], 1⟩)], [3,4]⟩ : SampleDict).lookup ("y") =
      some ⟨[1,1,2,3,4], 0⟩ := by
  have h := spec_c2 ⟨[("y", ⟨[2,3,4], 0⟩)], []⟩ ⟨[("x", ⟨[3,4,2,3,4], 1⟩)], [3,4]⟩
    ⟨[("y", ⟨[1,1,2,3,4], 0⟩), ("x", ⟨[3,4,2,3,4], 1⟩)], [3,4]⟩ (by decide) (by decide)
  refine ⟨by decide, ?_⟩
  simpa using h.2 ("y") ⟨[2,3,4], 0⟩ (by decide) (by decide)

/-- C3 is false on the code: this update fails (its per-item assert is
violated) yet leaves the dict mutated: the existing entry b is unsqueezed
from shape (5,) to (1,5) and sample_shape grows from (5,) to (3,5).  Both
input dicts are constructible through SampleDict.__init__. -/
theorem spec_c3_counterexample :
    ((⟨[("b", ⟨[5], 0⟩)], [5]⟩ : SampleDict).update
        (UpdateArg.sd ⟨[("x", ⟨[3,4], 1⟩)], [3,4]⟩)).1.isSome = true ∧
    ((⟨[("b", ⟨[5], 0⟩)], [5]⟩ : SampleDict).update
        (UpdateArg.sd ⟨[("x", ⟨[3,4], 1⟩)], [3,4]⟩)).2 ≠ ⟨[("b", ⟨[5], 0⟩)], [5]⟩ ∧
    mkSampleDict [("b", .tensor ⟨[5], 0⟩)] [5] = .ok ⟨[("b", ⟨[5], 0⟩)], [5]⟩ ∧
    mkSampleDict [("x", .tensor ⟨[3,4], 1⟩)] [3,4] = .ok ⟨[("x", ⟨[3,4], 1⟩)], [3,4]⟩ := by
  decide

/-- C3 (amended): update is not atomic.  When d.update(v) fails on a
SampleDict v with a strictly deeper sample_shape, d is left in the
phase-1-mutated state: its sample_shape has already been recomputed and its
entries not overwritten are already unsqueezed, so a partial-success state
is observable. -/
theorem spec_c3_amended (d v : SampleDict)
    (hdeep : d.sample_shape.length < v.sample_shape.length)
    (hfail : (d.update (UpdateArg.sd v)).1.isSome = true) :
    (d.update (UpdateArg.sd v)).2.sample_shape =
      (if d.sample_shape = [] then v.sample_shape
       else v.sample_shape.take (v.sample_shape.length - d.sample_shape.length)
         ++ d.sample_shape) ∧
    ∀ k t, k ∉ v.entries.map Prod.fst → d.lookup k = some t →
      (d.update (UpdateArg.sd v)).2.lookup k =
        some (t.unsqueezeLead (v.sample_shape.length - d.sample_shape.length)) :=
  update_deeper_state d v hdeep

theorem spec_c3_amended_witness :
    ((⟨[("b", ⟨[5], 0⟩)], [5]⟩ : SampleDict).update
        (UpdateArg.sd ⟨[("x", ⟨[3,4], 1⟩)], [3,4]⟩)).2.sample_shape = [3,5] ∧
    ((⟨[("b", ⟨[5], 0⟩)], [5]⟩ : SampleDict).update
        (UpdateArg.sd ⟨[("x", ⟨[3,4], 1⟩)], [3,4]⟩)).2.lookup ("b") = some ⟨[1,5], 0⟩ := by
  have h := spec_c3_amended ⟨[("b", ⟨[5], 0⟩)], [5]⟩ ⟨[("x", ⟨[3,4], 1⟩)], [3,4]⟩
    (by decide) (by decide)
  refine ⟨by simpa using h.1, ?_⟩
  simpa using h.2 ("b") ⟨[5], 0⟩ (by decide) (by decide)

theorem setitem_ok_sample_shape (d : SampleDict) (k : String) (v : PyValue)
    (r : SampleDict) (h : d.setitem k v = .ok r) : r.sample_shape = d.sample_shape := by
  rw [SampleDict.setitem] at h
  split at h
  · cases h
    rfl
  · cases h

theorem mkSampleDictGo_sample_shape (items : List (String × PyValue)) (d r : SampleDict)
    (h : mkSampleDictGo items d = .ok r) : r.sample_shape = d.sample_shape := by
  induction items generalizing d with
  | nil =>
    cases h
    rfl
  | cons hd tl ih =>
    obtain ⟨k, v⟩ := hd
    rw [mkSampleDictGo] at h
    cases hset : d.setitem k v with
    | error e =>
      rw [hset] at h
      cases h
    | ok d1 =>
      rw [hset] at h
      rw [ih d1 h]
      exact setitem_ok_sample_shape d k v d1 hset

theorem mkSampleDict_sample_shape (items : List (String × PyValue)) (ss : List Nat)
    (r : SampleDict) (h : mkSampleDict items ss = .ok r) : r.sample_shape = ss :=
  mkSampleDictGo_sample_shape items _ r h

/-- C4 is false on the code for split: both SampleDicts it returns are
constructed without passing self.sample_shape, so they come back with the
default empty sample_shape, not the parent (2,). -/
theorem spec_c4_counterexample :
    ((⟨[("x", ⟨[2,3], 0⟩)], [2]⟩ : SampleDict).split ["x"]).map
        (fun p => (p.1.sample_shape, p.2.sample_shape)) = .ok ([], []) ∧
    (⟨[("x", ⟨[2,3], 0⟩)], [2]⟩ : SampleDict).sample_shape = [2] := by
  decide

/-- C4 (amended): from_variables and replaced_dict preserve the parent
sample_shape on every SampleDict they return, but both SampleDicts returned
by split have the empty sample_shape (). -/
theorem spec_c4_amended (d : SampleDict) (var : List String)
    (key_diff : List (String × String)) (r1 r2 : SampleDict) (p : SampleDict × SampleDict) :
    (d.from_variables var = .ok r1 → r1.sample_shape = d.sample_shape) ∧
    (d.replaced_dict key_diff = .ok r2 → r2.sample_shape = d.sample_shape) ∧
    (d.split var = .ok p → p.1.sample_shape = [] ∧ p.2.sample_shape = []) := by
  refine ⟨?_, ?_, ?_⟩
  · intro h
    exact mkSampleDict_sample_shape _ _ _ h
  · intro h
    exact mkSampleDict_sample_shape _ _ _ h
  · intro h
    rw [SampleDict.split] at h
    cases h1 : mkSampleDict
        (((d.entries.filter fun kv => var.contains kv.1).map
          fun kv => (kv.1, PyValue.tensor kv.2))) [] with
    | error e =>
      rw [h1] at h
      cases h
    | ok e1 =>
      rw [h1] at h
      cases h2 : mkSampleDict
          (((d.entries.filter fun kv => !var.contains kv.1).map
            fun kv => (kv.1, PyValue.tensor kv.2))) [] with
      | error e =>
        rw [h2] at h
        cases h
      | ok e2 =>
        rw [h2] at h
        have hp : (e1, e2) = p := by
          exact congrArg (fun x => match x with | Except.ok y => y | Except.error _ => (e1, e2)) h
        rw [← hp]
        exact ⟨mkSampleDict_sample_shape _ _ _ h1, mkSampleDict_sample_shape _ _ _ h2⟩

theorem spec_c4_amended_witness :
    (⟨[("x", ⟨[2,3], 0⟩)], [2]⟩ : SampleDict).sample_shape = [2] ∧
    (⟨[("y", ⟨[2,3], 0⟩)], [2]⟩ : SampleDict).sample_shape = [2] ∧
    (⟨[("x", ⟨[2,3], 0⟩)], []⟩ : SampleDict).sample_shape = [] ∧
    (⟨[], []⟩ : SampleDict).sample_shape = [] := by
  have h := spec_c4_amended ⟨[("x", ⟨[2,3], 0⟩)], [2]⟩ ["x"] [("x", "y")]
    ⟨[("x", ⟨[2,3], 0⟩)], [2]⟩ ⟨[("y", ⟨[2,3], 0⟩)], [2]⟩
    (⟨[("x", ⟨[2,3], 0⟩)], []⟩, ⟨[], []⟩)
  exact ⟨h.1 (by decide), h.2.1 (by decide), h.2.2 (by decide)⟩

/-- C5: __setitem__ coerces the value to a float tensor, stores it unchanged
(same shape, no unsqueezing, sample_shape untouched) exactly when its
leading dims truncated to len(sample_shape) broadcast to sample_shape, and
raises ValueError otherwise. -/
theorem spec_c5 (d : SampleDict) (k : String) (v : PyValue) :
    (is_broadcastable_to (pySliceTo v.toTensor.shape d.sample_shape.length)
        d.sample_shape = true →
      d.setitem k v = .ok ⟨storeEntry d.entries k v.toTensor, d.sample_shape⟩) ∧
    (is_broadcastable_to (pySliceTo v.toTensor.shape d.sample_shape.length)
        d.sample_shape = false →
      d.setitem k v = .error ("the sample shape of value does not match")) := by
  constructor
  · intro h
    simp [SampleDict.setitem, h]
  · intro h
    simp [SampleDict.setitem, h]

theorem spec_c5_witness :
    (⟨[], [2]⟩ : SampleDict).setitem ("x") (.tensor ⟨[2,3], 0⟩) =
      .ok ⟨storeEntry [] "x" ⟨[2,3], 0⟩, [2]⟩ ∧
    (⟨[], [2]⟩ : SampleDict).setitem ("y") (.tensor ⟨[3,3], 0⟩) =
      .error ("the sample shape of value does not match") :=
  ⟨(spec_c5 ⟨[], [2]⟩ "x" (.tensor ⟨[2,3], 0⟩)).1 (by decide),
   (spec_c5 ⟨[], [2]⟩ "y" (.tensor ⟨[3,3], 0⟩)).2 (by decide)⟩

/-- C8: is_broadcastable_to zips the two reversed shapes (truncating at the
shorter) and accepts iff every pair has source dim 1 or equal dims; in
particular an empty shape on either side is always accepted. -/
theorem spec_c8 (f t : List Nat) :
    (is_broadcastable_to f t = true ↔
      ∀ p ∈ f.reverse.zip t.reverse, p.1 = 1 ∨ p.1 = p.2) ∧
    is_broadcastable_to f [] = true ∧ is_broadcastable_to [] t = true := by
  refine ⟨?_, by simp [is_broadcastable_to], by simp [is_broadcastable_to]⟩
  rw [is_broadcastable_to, List.all_eq_true]
  constructor
  · intro h p hp
    have := h p hp
    simpa using this
  · intro h p hp
    have := h p hp
    simpa using this

theorem spec_c8_witness : is_broadcastable_to [1,5] [4,5] = true :=
  (spec_c8 [1,5] [4,5]).1.mpr (by decide)

/-- C9: under CPython dispatch, == (and !=) between two SampleDict
instances always raises the _check_dict_type ValueError: the super() proxy
comparison returns NotImplemented and the reflected SampleDict.__eq__ sees
the proxy, which is not a SampleDict instance. -/
theorem spec_c9 (i j : Nat) (a b : SampleDict) :
    py_eq (PyOperand.sd i a) (PyOperand.sd j b) = .error ("sample_dict is downgraded.") ∧
    py_ne (PyOperand.sd i a) (PyOperand.sd j b) = .error ("sample_dict is downgraded.") := by
  constructor
  · rfl
  · rfl

/-- C10: with an empty sample_shape, batch_dim is the Python int -1 and
n_batch(k) fetches the LAST dimension of the entry via negative indexing. -/
theorem spec_c10 (d : SampleDict) (k : String) (t : STensor)
    (h1 : d.sample_shape = []) (h2 : d.lookup k = some t) (h3 : t.shape ≠ []) :
    d.batch_dim = -1 ∧ d.n_batch k = some (t.shape.getLast h3) := by
  have hb : d.batch_dim = -1 := by
    simp [SampleDict.batch_dim, h1]
  refine ⟨hb, ?_⟩
  rw [SampleDict.n_batch, h2, Option.some_bind, hb]
  have hlen : 0 < t.shape.length := List.length_pos.mpr h3
  have hidx : t.shape.length - 1 < t.shape.length := by omega
  rw [pyGet]
  simp only [if_neg (by norm_num : ¬(0 : Int) ≤ -1)]
  rw [if_pos (by simpa using hlen)]
  simp only [Int.natAbs_neg, Int.natAbs_one]
  rw [List.get?_eq_getElem?, List.getElem?_eq_getElem hidx]
  rw [List.getLast_eq_getElem]

theorem spec_c10_witness :
    (⟨[("x", ⟨[4,7], 0⟩)], []⟩ : SampleDict).batch_dim = -1 ∧
    (⟨[("x", ⟨[4,7], 0⟩)], []⟩ : SampleDict).n_batch ("x") = some 7 := by
  have h := spec_c10 ⟨[("x", ⟨[4,7], 0⟩)], []⟩ ("x") ⟨[4,7], 0⟩ (by decide) (by decide)
    (by decide)
  exact ⟨h.1, by simpa using h.2⟩

/- Model of the flow operations.  A torch tensor is its shape together with
its contents in logical row-major order (position n holds the element whose
multi-index linearizes to n).  torch.Tensor.view, whenever it succeeds,
returns a tensor with the same elements in the same logical row-major order
(it equals reshape / contiguous().view), so view only changes the shape in
this model; contiguous() is the identity; permute reorders both the shape
and the positions. -/

/-- Row-major linearization of a multi-index for a given shape. -/
def toFlat : List Nat → List Nat → Nat
  | _ :: ds, i :: is => i * ds.prod + toFlat ds is
  | _, _ => 0

/-- Row-major delinearization of a flat position for a given shape. -/
def fromFlat : List Nat → Nat → List Nat
  | [], _ => []
  | _ :: ds, n => n / ds.prod :: fromFlat ds (n % ds.prod)

/-- Bounds check of a multi-index against a shape. -/
def validIdx : List Nat → List Nat → Bool
  | [], [] => true
  | d :: ds, i :: is => decide (i < d) && validIdx ds is
  | _, _ => false

/-- A 4D (or any-rank) torch tensor: shape plus contents in logical
row-major order. -/
structure Tensor where
  shape : List Nat
  data : Nat → Int

/-- The flat-position remap performed by x.permute(dims): the element at
out-position n is the in-element whose multi-index is the out multi-index
read back through dims. -/
def permPos (s : List Nat) (dims : List Nat) (n : Nat) : Nat :=
  toFlat s ((List.range s.length).map fun i =>
    (fromFlat (dims.map fun j => s.getD j 0) n).getD (dims.indexOf i) 0)

/-- x.permute(dims). -/
def Tensor.permute (t : Tensor) (dims : List Nat) : Tensor :=
  { shape := dims.map fun i => t.shape.getD i 0,
    data := fun n => t.data (permPos t.shape dims n) }

/-- x.contiguous(): identity on the logical tensor. -/
def Tensor.contiguous (t : Tensor) : Tensor := t

/-- x.view(spec), with a -1 entry inferred as numel divided by the product
of the non-negative entries; the logical row-major contents are unchanged. -/
def Tensor.view (t : Tensor) (spec : List Int) : Tensor :=
  { shape :=
      spec.map fun d =>
        if d < 0 then t.shape.prod / (((spec.filter fun e => 0 ≤ e).map Int.toNat).prod)
        else d.toNat,
    data := t.data }

/-- SqueezeLayer.forward (the compute_jacobian branch only sets the constant
log-det 0 and is omitted): unpack (_, channels, height, width), require even
height and width, then permute / view / permute / view / permute. -/
def SqueezeLayer.forward (x : Tensor) : Except String Tensor :=
  match x.shape with
  | [_, channels, height, width] =>
    if height % 2 ≠ 0 ∨ width % 2 ≠ 0 then .error ("ValueError")
    else
      let x1 := x.permute [0, 2, 3, 1]
      let x2 := x1.view [-1, ((height / 2 : Nat) : Int), 2, ((width / 2 : Nat) : Int), 2,
        (channels : Int)]
      let x3 := x2.permute [0, 1, 3, 5, 2, 4]
      let x4 := x3.contiguous.view [-1, ((height / 2 : Nat) : Int), ((width / 2 : Nat) : Int),
        ((channels * 4 : Nat) : Int)]
      .ok (x4.permute [0, 3, 1, 2])
  | _ => .error ("ValueError")

/-- SqueezeLayer.inverse: unpack (_, channels, height, width), require the
channel count divisible by 4, then permute / view / permute / view /
permute. -/
def SqueezeLayer.inverse (z : Tensor) : Except String Tensor :=
  match z.shape with
  | [_, channels, height, width] =>
    if channels % 4 ≠ 0 then .error ("ValueError")
    else
      let z1 := z.permute [0, 2, 3, 1]
      let z2 := z1.view [-1, (height : Int), (width : Int), ((channels / 4 : Nat) : Int), 2, 2]
      let z3 := z2.permute [0, 1, 4, 2, 5, 3]
      let z4 := z3.contiguous.view [-1, ((2 * height : Nat) : Int), ((2 * width : Nat) : Int),
        ((channels / 4 : Nat) : Int)]
      .ok (z4.permute [0, 3, 1, 2])
  | _ => .error ("ValueError")

/-- np.argsort over a list of keys: the positions 0..len-1 sorted by key
(ties cannot occur for the permutations PermutationLayer is used with). -/
def argsort (l : List Nat) : List Nat :=
  (List.range l.length).mergeSort fun i j => decide (l.getD i 0 ≤ l.getD j 0)

/-- x[:, idxs, :, :]: advanced indexing along dimension 1. -/
def Tensor.selectDim1 (t : Tensor) (idxs : List Nat) : Tensor :=
  let outShape := t.shape.take 1 ++ [idxs.length] ++ t.shape.drop 2
  { shape := outShape,
    data := fun n =>
      let oi := fromFlat outShape n
      t.data (toFlat t.shape (oi.take 1 ++ [idxs.getD (oi.getD 1 0) 0] ++ oi.drop 2)) }

/-- PermutationLayer: stores permute_indices and inv_permute_indices =
np.argsort(permute_indices); log-det 0 omitted as for SqueezeLayer. -/
structure PermutationLayer where
  permute_indices : List Nat
  inv_permute_indices : List Nat

/-- PermutationLayer.__init__(permute_indices). -/
def PermutationLayer.init (permute_indices : List Nat) : PermutationLayer :=
  { permute_indices := permute_indices,
    inv_permute_indices := argsort permute_indices }

/-- PermutationLayer.forward: x[:, self.permute_indices, :, :]. -/
def PermutationLayer.forward (f : PermutationLayer) (x : Tensor) : Tensor :=
  x.selectDim1 f.permute_indices

/-- PermutationLayer.inverse: z[:, self.inv_permute_indices, :, :]. -/
def PermutationLayer.inverse (f : PermutationLayer) (z : Tensor) : Tensor :=
  z.selectDim1 f.inv_permute_indices

theorem fromFlat_length (ds : List Nat) (n : Nat) : (fromFlat ds n).length = ds.length := by
  induction ds generalizing n with
  | nil => rfl
  | cons d ds ih => simp [fromFlat, ih]

theorem validIdx_iff : ∀ (ds is : List Nat),
    validIdx ds is = true ↔
      (is.length = ds.length ∧
        ∀ i, (h1 : i < is.length) → (h2 : i < ds.length) → is[i] < ds[i])
  | [], [] => by simp [validIdx]
  | [], i :: is => by simp [validIdx]
  | d :: ds, [] => by simp [validIdx]
  | d :: ds, i :: is => by
    rw [validIdx]
    simp only [Bool.and_eq_true, decide_eq_true_eq]
    rw [validIdx_iff ds is]
    constructor
    · rintro ⟨h1, h2, h3⟩
      refine ⟨by simp [h2], ?_⟩
      intro j hj1 hj2
      cases j with
      | zero => simpa using h1
      | succ j => simpa using h3 j (by simpa using hj1) (by simpa using hj2)
    · rintro ⟨h1, h2⟩
      refine ⟨by simpa using h2 0 (by simp) (by simp), by simpa using h1, ?_⟩
      intro j hj1 hj2
      simpa using h2 (j + 1) (by simpa using hj1) (by simpa using hj2)

theorem toFlat_lt : ∀ (ds is : List Nat), validIdx ds is = true → toFlat ds is < ds.prod
  | [], [] => by
    intro h
    simp [toFlat]
  | [], i :: is => by
    intro h
    simp [validIdx] at h
  | d :: ds, [] => by
    intro h
    simp [validIdx] at h
  | d :: ds, i :: is => by
    intro h
    rw [validIdx] at h
    simp only [Bool.and_eq_true, decide_eq_true_eq] at h
    have h2 := toFlat_lt ds is h.2
    rw [toFlat, List.prod_cons]
    calc i * ds.prod + toFlat ds is < i * ds.prod + ds.prod := by omega
      _ = (i + 1) * ds.prod := by ring
      _ ≤ d * ds.prod := Nat.mul_le_mul_right _ (by omega)

theorem prod_pos_of_lt (ds : List Nat) (n d : Nat) (h : n < d * ds.prod) : 0 < ds.prod := by
  rcases Nat.eq_zero_or_pos ds.prod with h0 | h0
  · rw [h0, Nat.mul_zero] at h
    omega
  · exact h0

theorem toFlat_fromFlat : ∀ (ds : List Nat) (n : Nat), n < ds.prod →
    toFlat ds (fromFlat ds n) = n
  | [], n => by
    intro h
    simp only [List.prod_nil] at h
    interval_cases n
    rfl
  | d :: ds, n => by
    intro h
    rw [List.prod_cons] at h
    have hP : 0 < ds.prod := prod_pos_of_lt ds n d h
    rw [fromFlat, toFlat]
    rw [toFlat_fromFlat ds (n % ds.prod) (Nat.mod_lt n hP)]
    rw [Nat.mul_comm]
    exact Nat.div_add_mod n ds.prod

theorem fromFlat_toFlat : ∀ (ds is : List Nat), validIdx ds is = true →
    fromFlat ds (toFlat ds is) = is
  | [], [] => by
    intro h
    rfl
  | [], i :: is => by
    intro h
    simp [validIdx] at h
  | d :: ds, [] => by
    intro h
    simp [validIdx] at h
  | d :: ds, i :: is => by
    intro h
    rw [validIdx] at h
    simp only [Bool.and_eq_true, decide_eq_true_eq] at h
    have ht : toFlat ds is < ds.prod := toFlat_lt ds is h.2
    have hP : 0 < ds.prod := by omega
    rw [toFlat, fromFlat]
    have hdiv : (i * ds.prod + toFlat ds is) / ds.prod = i := by
      rw [Nat.add_comm, Nat.add_mul_div_right _ _ hP, Nat.div_eq_of_lt ht]
      omega
    have hmod : (i * ds.prod + toFlat ds is) % ds.prod = toFlat ds is := by
      rw [Nat.add_comm, Nat.add_mul_mod_self_right, Nat.mod_eq_of_lt ht]
    rw [hdiv, hmod, fromFlat_toFlat ds is h.2]

theorem validIdx_fromFlat : ∀ (ds : List Nat) (n : Nat), n < ds.prod →
    validIdx ds (fromFlat ds n) = true
  | [], n => by
    intro h
    rfl
  | d :: ds, n => by
    intro h
    rw [List.prod_cons] at h
    have hP : 0 < ds.prod := prod_pos_of_lt ds n d h
    rw [fromFlat, validIdx]
    simp only [Bool.and_eq_true, decide_eq_true_eq]
    refine ⟨?_, validIdx_fromFlat ds (n % ds.prod) (Nat.mod_lt n hP)⟩
    rw [Nat.div_lt_iff_lt_mul hP]
    omega

theorem map_range_getD (is : List Nat) (k : Nat) (h : is.length = k) :
    (List.range k).map (fun i => is.getD i 0) = is := by
  refine List.ext_getElem (by simp [h]) ?_
  intro n h1 h2
  rw [List.getElem_map, List.getElem_range]
  exact List.getD_eq_getElem is 0 h2

theorem getD_map_lt {α β : Type} (l : List α) (f : α → β) (j : Nat) (hj : j < l.length)
    (d : β) (e : α) : (l.map f).getD j d = f (l.getD j e) := by
  rw [List.getD_eq_getElem _ d (by simpa using hj), List.getD_eq_getElem _ e hj,
    List.getElem_map]

theorem getD_range_map {β : Type} (f : Nat → β) (k j : Nat) (hj : j < k) (d : β) :
    ((List.range k).map f).getD j d = f j := by
  rw [List.getD_eq_getElem _ d (by simpa using hj), List.getElem_map, List.getElem_range]

theorem validIdx_length (ds is : List Nat) (h : validIdx ds is = true) :
    is.length = ds.length :=
  ((validIdx_iff ds is).mp h).1

theorem validIdx_getD (ds is : List Nat) (h : validIdx ds is = true) (i : Nat)
    (hi : i < ds.length) : is.getD i 0 < ds.getD i 0 := by
  rw [validIdx_iff] at h
  obtain ⟨hl, hb⟩ := h
  rw [List.getD_eq_getElem is 0 (by omega), List.getD_eq_getElem ds 0 hi]
  exact hb i (by omega) hi

theorem validIdx_of_getD (ds is : List Nat) (hl : is.length = ds.length)
    (hb : ∀ i, i < ds.length → is.getD i 0 < ds.getD i 0) : validIdx ds is = true := by
  rw [validIdx_iff]
  refine ⟨hl, ?_⟩
  intro i h1 h2
  have := hb i h2
  rwa [List.getD_eq_getElem is 0 h1, List.getD_eq_getElem ds 0 h2] at this

/-- p and q are mutually inverse permutations of the dimensions of shape s:
the facts about indexOf and getD that permPos reasoning needs; decidable, so
concrete instances close by decide. -/
abbrev PermInv (s p q : List Nat) : Prop :=
  p.length = s.length ∧ q.length = s.length ∧
  ∀ i, i < s.length →
    p.getD i 0 < s.length ∧ q.getD i 0 < s.length ∧
    p.indexOf i = q.getD i 0 ∧ q.indexOf i = p.getD i 0 ∧
    p.getD (q.getD i 0) 0 = i ∧ q.getD (p.getD i 0) 0 = i

theorem permPos_lt (s p q : List Nat) (hpq : PermInv s p q) (n : Nat)
    (hn : n < (p.map fun j => s.getD j 0).prod) : permPos s p n < s.prod := by
  obtain ⟨hp, hq, hi⟩ := hpq
  have holen : (p.map fun j => s.getD j 0).length = s.length := by simp [hp]
  have hJv := validIdx_fromFlat _ n hn
  have hJlen : (fromFlat (p.map fun j => s.getD j 0) n).length = s.length := by
    rw [fromFlat_length]
    exact holen
  rw [permPos]
  apply toFlat_lt
  apply validIdx_of_getD
  · simp
  · intro i hi2
    obtain ⟨hb1, hb2, hb3, hb4, hb5, hb6⟩ := hi i hi2
    rw [getD_range_map _ _ _ hi2, hb3]
    have hlt := validIdx_getD _ _ hJv (q.getD i 0) (by omega)
    rwa [getD_map_lt p _ _ (by omega) 0 0, hb5] at hlt

theorem permPos_cancel (s p q : List Nat) (hpq : PermInv s p q) (n : Nat)
    (hn : n < s.prod) :
    permPos s p (permPos (p.map fun j => s.getD j 0) q n) = n := by
  obtain ⟨hp, hq, hi⟩ := hpq
  have holen : (p.map fun j => s.getD j 0).length = s.length := by simp [hp]
  have hqo : q.map (fun j => (p.map fun i => s.getD i 0).getD j 0) = s := by
    refine List.ext_getElem (by simp [hq, hp]) ?_
    intro i h1 h2
    have h2s : i < s.length := by simpa [hq] using h2
    obtain ⟨hb1, hb2, hb3, hb4, hb5, hb6⟩ := hi i h2s
    rw [List.getElem_map]
    have hqi : q[i] = q.getD i 0 := (List.getD_eq_getElem q 0 (by omega)).symm
    rw [hqi, getD_map_lt p _ _ (by omega) 0 0, hb5]
    exact List.getD_eq_getElem s 0 h2s
  have hJv : validIdx s (fromFlat s n) = true := validIdx_fromFlat s n hn
  have hJlen : (fromFlat s n).length = s.length := fromFlat_length s n
  -- the inner permPos: the out shape of q over (p mapped s) is s itself
  have hinner : permPos (p.map fun j => s.getD j 0) q n =
      toFlat (p.map fun j => s.getD j 0) ((List.range s.length).map fun i =>
        (fromFlat s n).getD (q.indexOf i) 0) := by
    rw [permPos, hqo, holen]
  have hKv : validIdx (p.map fun j => s.getD j 0)
      ((List.range s.length).map fun i => (fromFlat s n).getD (q.indexOf i) 0) = true := by
    apply validIdx_of_getD
    · simp [hp]
    · intro i hio
      have his : i < s.length := by simpa [hp] using hio
      obtain ⟨hb1, hb2, hb3, hb4, hb5, hb6⟩ := hi i his
      rw [getD_range_map _ _ _ his, hb4, getD_map_lt p _ _ (by simpa [hp] using hio) 0 0]
      exact validIdx_getD _ _ hJv (p.getD i 0) (by omega)
  rw [hinner, permPos, fromFlat_toFlat _ _ hKv]
  have houter : (List.range s.length).map (fun i =>
      ((List.range s.length).map fun i2 => (fromFlat s n).getD (q.indexOf i2) 0).getD
        (p.indexOf i) 0) = fromFlat s n := by
    refine List.ext_getElem (by simp [hJlen]) ?_
    intro i h1 h2
    have his : i < s.length := by simpa using h1
    obtain ⟨hb1, hb2, hb3, hb4, hb5, hb6⟩ := hi i his
    rw [List.getElem_map, List.getElem_range, hb3, getD_range_map _ _ _ hb2]
    obtain ⟨hc1, hc2, hc3, hc4, hc5, hc6⟩ := hi (q.getD i 0) hb2
    rw [hc4, hb5]
    exact (List.getD_eq_getElem _ 0 (by simpa [hJlen] using h2))
  rw [houter, toFlat_fromFlat s n hn]

theorem decide_nonneg_natCast (n : Nat) : (decide ((0 : Int) ≤ (n : Int))) = true :=
  decide_eq_true (Int.natCast_nonneg n)

theorem decide_nonneg_negone : (decide ((0 : Int) ≤ (-1 : Int))) = false := by
  decide

theorem ite_lt_zero_natCast {α : Type} (n : Nat) (x y : α) :
    (if (n : Int) < 0 then x else y) = y :=
  if_neg (by omega)

theorem ite_lt_zero_negone {α : Type} (x y : α) :
    (if (-1 : Int) < 0 then x else y) = x :=
  if_pos (by omega)

theorem view6_shape (t : Tensor) (a1 a2 a3 a4 a5 B : Nat)
    (hp : t.shape.prod = B * (a1 * (a2 * (a3 * (a4 * (a5 * 1))))))
    (hpos : 0 < a1 * (a2 * (a3 * (a4 * (a5 * 1))))) :
    (t.view [-1, (a1 : Int), (a2 : Int), (a3 : Int), (a4 : Int), (a5 : Int)]).shape =
      [B, a1, a2, a3, a4, a5] := by
  simp only [Tensor.view, List.map, List.filter, decide_nonneg_natCast, decide_nonneg_negone,
    ite_lt_zero_natCast, ite_lt_zero_negone, Int.toNat_natCast, List.prod_cons, List.prod_nil,
    hp]
  rw [Nat.mul_div_cancel _ hpos]

theorem view4_shape (t : Tensor) (a1 a2 a3 B : Nat)
    (hp : t.shape.prod = B * (a1 * (a2 * (a3 * 1))))
    (hpos : 0 < a1 * (a2 * (a3 * 1))) :
    (t.view [-1, (a1 : Int), (a2 : Int), (a3 : Int)]).shape = [B, a1, a2, a3] := by
  simp only [Tensor.view, List.map, List.filter, decide_nonneg_natCast, decide_nonneg_negone,
    ite_lt_zero_natCast, ite_lt_zero_negone, Int.toNat_natCast, List.prod_cons, List.prod_nil,
    hp]
  rw [Nat.mul_div_cancel _ hpos]

/-- PermInv only inspects the lengths, so it holds for the concrete
dimension permutations of SqueezeLayer over any rank-4 shape. -/
theorem permInv4 (s : List Nat) (hs : s.length = 4) (p q : List Nat)
    (h : PermInv [0, 0, 0, 0] p q) : PermInv s p q := by
  unfold PermInv at h ⊢
  rw [hs]
  simpa using h

theorem permInv6 (s : List Nat) (hs : s.length = 6) (p q : List Nat)
    (h : PermInv [0, 0, 0, 0, 0, 0] p q) : PermInv s p q := by
  unfold PermInv at h ⊢
  rw [hs]
  simpa using h

/-- The cancellation lemma with the intermediate shape abstracted, so it can
be applied when the inner shape has already been computed to a literal
list. -/
theorem permPos_cancel_of_eq (s p q o : List Nat) (ho : o = p.map fun j => s.getD j 0)
    (hpq : PermInv s p q) (n : Nat) (hn : n < s.prod) :
    permPos s p (permPos o q n) = n := by
  rw [ho]
  exact permPos_cancel s p q hpq n hn

theorem permPos_lt_of_eq (s p q o : List Nat) (ho : o = p.map fun j => s.getD j 0)
    (hpq : PermInv s p q) (n : Nat) (hn : n < o.prod) : permPos s p n < s.prod := by
  apply permPos_lt s p q hpq n
  rw [← ho]
  exact hn

theorem permute_data (t : Tensor) (p : List Nat) (n : Nat) :
    (t.permute p).data n = t.data (permPos t.shape p n) := rfl

theorem view_data (t : Tensor) (spec : List Int) (n : Nat) :
    (t.view spec).data n = t.data n := rfl

theorem permute_shape (t : Tensor) (p : List Nat) :
    (t.permute p).shape = p.map fun i => t.shape.getD i 0 := rfl

theorem view_shape_squeeze1 (t : Tensor) (a1 a3 a5 B : Nat)
    (hp : t.shape.prod = B * (a1 * (2 * (a3 * (2 * (a5 * 1))))))
    (hpos : 0 < a1 * (2 * (a3 * (2 * (a5 * 1))))) :
    (t.view [-1, (a1 : Int), 2, (a3 : Int), 2, (a5 : Int)]).shape =
      [B, a1, 2, a3, 2, a5] := by
  simp only [Tensor.view, List.map, List.filter, decide_nonneg_natCast, decide_nonneg_negone,
    ite_lt_zero_natCast, ite_lt_zero_negone, Int.toNat_natCast, List.prod_cons,
    List.prod_nil, hp]
  have h2 : (Int.toNat 2) = 2 := rfl
  simp only [h2, Nat.mul_one]
  rw [Nat.mul_div_cancel _ (by simpa using hpos)]
  norm_num

theorem view_shape_squeeze2 (t : Tensor) (a1 a2 a3 B : Nat)
    (hp : t.shape.prod = B * (a1 * (a2 * (a3 * (2 * (2 * 1))))))
    (hpos : 0 < a1 * (a2 * (a3 * (2 * (2 * 1))))) :
    (t.view [-1, (a1 : Int), (a2 : Int), (a3 : Int), 2, 2]).shape =
      [B, a1, a2, a3, 2, 2] := by
  simp only [Tensor.view, List.map, List.filter, decide_nonneg_natCast, decide_nonneg_negone,
    ite_lt_zero_natCast, ite_lt_zero_negone, Int.toNat_natCast, List.prod_cons,
    List.prod_nil, hp]
  have h2 : (Int.toNat 2) = 2 := rfl
  simp only [h2, Nat.mul_one]
  rw [Nat.mul_div_cancel _ (by simpa using hpos)]
  norm_num

/-- C6: the squeeze round-trip.  For a 4D tensor with even, positive spatial
dims and a positive channel count (torch view with -1 cannot infer the batch
dim on empty tensors), forward succeeds with shape (b, 4c, h/2, w/2) and
inverse of forward returns the original tensor exactly. -/
theorem spec_c6 (x : Tensor) (b c h w : Nat) (hsh : x.shape = [b, c, h, w])
    (hh : h % 2 = 0) (hw : w % 2 = 0) (hc : 0 < c) (hh0 : 0 < h) (hw0 : 0 < w) :
    ∃ z y : Tensor,
      SqueezeLayer.forward x = Except.ok z ∧
      z.shape = [b, 4 * c, h / 2, w / 2] ∧
      SqueezeLayer.inverse z = Except.ok y ∧
      y.shape = x.shape ∧
      ∀ n, n < x.shape.prod → y.data n = x.data n := by
  obtain ⟨m, rfl⟩ : ∃ m, h = 2 * m := ⟨h / 2, by omega⟩
  obtain ⟨v, rfl⟩ : ∃ v, w = 2 * v := ⟨w / 2, by omega⟩
  have hm0 : 0 < m := by omega
  have hv0 : 0 < v := by omega
  have hm2 : 2 * m / 2 = m := by omega
  have hv2 : 2 * v / 2 = v := by omega
  have hc4 : c * 4 / 4 = c := by omega
  have hs1 : (x.permute [0,2,3,1]).shape = [b, 2 * m, 2 * v, c] := by
    rw [permute_shape, hsh]
    rfl
  have hp1 : ((x.permute [0,2,3,1]).shape).prod = b * (m * (2 * (v * (2 * (c * 1))))) := by
    rw [hs1]
    simp only [List.prod_cons, List.prod_nil]
    ring
  have hs2 : ((x.permute [0,2,3,1]).view
      [-1, (m : Int), 2, (v : Int), 2, (c : Int)]).shape = [b, m, 2, v, 2, c] :=
    view_shape_squeeze1 _ m v c b hp1
      (by simp [Nat.pos_iff_ne_zero, Nat.mul_eq_zero]; omega)
  have hs3 : (((x.permute [0,2,3,1]).view
      [-1, (m : Int), 2, (v : Int), 2, (c : Int)]).permute [0,1,3,5,2,4]).shape =
      [b, m, v, c, 2, 2] := by
    rw [permute_shape, hs2]
    rfl
  have hp3 : ((((x.permute [0,2,3,1]).view
      [-1, (m : Int), 2, (v : Int), 2, (c : Int)]).permute [0,1,3,5,2,4]).shape).prod =
      b * (m * (v * (c * 4 * 1))) := by
    rw [hs3]
    simp only [List.prod_cons, List.prod_nil]
    ring
  have hs4 : ((((x.permute [0,2,3,1]).view
      [-1, (m : Int), 2, (v : Int), 2, (c : Int)]).permute [0,1,3,5,2,4]).view
      [-1, (m : Int), (v : Int), ((c * 4 : Nat) : Int)]).shape = [b, m, v, c * 4] :=
    view4_shape _ m v (c * 4) b hp3
      (by simp [Nat.pos_iff_ne_zero, Nat.mul_eq_zero]; omega)
  have hs5 : (((((x.permute [0,2,3,1]).view
      [-1, (m : Int), 2, (v : Int), 2, (c : Int)]).permute [0,1,3,5,2,4]).view
      [-1, (m : Int), (v : Int), ((c * 4 : Nat) : Int)]).permute [0,3,1,2]).shape =
      [b, c * 4, m, v] := by
    rw [permute_shape, hs4]
    rfl
  have hz1 : ((((((x.permute [0,2,3,1]).view
      [-1, (m : Int), 2, (v : Int), 2, (c : Int)]).permute [0,1,3,5,2,4]).view
      [-1, (m : Int), (v : Int), ((c * 4 : Nat) : Int)]).permute [0,3,1,2]).permute
      [0,2,3,1]).shape = [b, m, v, c * 4] := by
    rw [permute_shape, hs5]
    rfl
  have hpz1 : (((((((x.permute [0,2,3,1]).view
      [-1, (m : Int), 2, (v : Int), 2, (c : Int)]).permute [0,1,3,5,2,4]).view
      [-1, (m : Int), (v : Int), ((c * 4 : Nat) : Int)]).permute [0,3,1,2]).permute
      [0,2,3,1]).shape).prod = b * (m * (v * (c * (2 * (2 * 1))))) := by
    rw [hz1]
    simp only [List.prod_cons, List.prod_nil]
    ring
  have hz2 : (((((((x.permute [0,2,3,1]).view
      [-1, (m : Int), 2, (v : Int), 2, (c : Int)]).permute [0,1,3,5,2,4]).view
      [-1, (m : Int), (v : Int), ((c * 4 : Nat) : Int)]).permute [0,3,1,2]).permute
      [0,2,3,1]).view [-1, (m : Int), (v : Int), (c : Int), 2, 2]).shape =
      [b, m, v, c, 2, 2] :=
    view_shape_squeeze2 _ m v c b hpz1
      (by simp [Nat.pos_iff_ne_zero, Nat.mul_eq_zero]; omega)
  have hz3 : ((((((((x.permute [0,2,3,1]).view
      [-1, (m : Int), 2, (v : Int), 2, (c : Int)]).permute [0,1,3,5,2,4]).view
      [-1, (m : Int), (v : Int), ((c * 4 : Nat) : Int)]).permute [0,3,1,2]).permute
      [0,2,3,1]).view [-1, (m : Int), (v : Int), (c : Int), 2, 2]).permute
      [0,1,4,2,5,3]).shape = [b, m, 2, v, 2, c] := by
    rw [permute_shape, hz2]
    rfl
  have hpz3 : (((((((((x.permute [0,2,3,1]).view
      [-1, (m : Int), 2, (v : Int), 2, (c : Int)]).permute [0,1,3,5,2,4]).view
      [-1, (m : Int), (v : Int), ((c * 4 : Nat) : Int)]).permute [0,3,1,2]).permute
      [0,2,3,1]).view [-1, (m : Int), (v : Int), (c : Int), 2, 2]).permute
      [0,1,4,2,5,3]).shape).prod = b * (2 * m * (2 * v * (c * 1))) := by
    rw [hz3]
    simp only [List.prod_cons, List.prod_nil]
    ring
  have hz4 : (((((((((x.permute [0,2,3,1]).view
      [-1, (m : Int), 2, (v : Int), 2, (c : Int)]).permute [0,1,3,5,2,4]).view
      [-1, (m : Int), (v : Int), ((c * 4 : Nat) : Int)]).permute [0,3,1,2]).permute
      [0,2,3,1]).view [-1, (m : Int), (v : Int), (c : Int), 2, 2]).permute
      [0,1,4,2,5,3]).view [-1, ((2 * m : Nat) : Int), ((2 * v : Nat) : Int), (c : Int)]).shape =
      [b, 2 * m, 2 * v, c] :=
    view4_shape _ (2 * m) (2 * v) c b hpz3
      (by simp [Nat.pos_iff_ne_zero, Nat.mul_eq_zero]; omega)
  refine ⟨((((x.permute [0,2,3,1]).view [-1, (m : Int), 2, (v : Int), 2, (c : Int)]).permute
        [0,1,3,5,2,4]).view [-1, (m : Int), (v : Int), ((c * 4 : Nat) : Int)]).permute
        [0,3,1,2],
    ((((((((x.permute [0,2,3,1]).view [-1, (m : Int), 2, (v : Int), 2, (c : Int)]).permute
        [0,1,3,5,2,4]).view [-1, (m : Int), (v : Int), ((c * 4 : Nat) : Int)]).permute
        [0,3,1,2]).permute [0,2,3,1]).view
        [-1, (m : Int), (v : Int), (c : Int), 2, 2]).permute [0,1,4,2,5,3]).view
        [-1, ((2 * m : Nat) : Int), ((2 * v : Nat) : Int), (c : Int)] |>.permute [0,3,1,2],
    ?_, ?_, ?_, ?_, ?_⟩
  · simp [SqueezeLayer.forward, hsh, hm2, hv2, Tensor.contiguous, Nat.mul_mod_right]
  · rw [hs5, hm2, hv2, Nat.mul_comm c 4]
  · simp only [SqueezeLayer.inverse, hs5, hc4, Tensor.contiguous, Nat.mul_mod_left,
      reduceIte]
    norm_num
  · rw [permute_shape, hz4, hsh]
    rfl
  · intro n hn
    rw [hsh] at hn
    simp only [permute_data, view_data]
    rw [hsh, hs2, hs4, hs5, hz2, hz4]
    have hpeAB : ([b, 2 * m, 2 * v, c] : List Nat).prod =
        ([b, m, 2, v, 2, c] : List Nat).prod := by
      simp only [List.prod_cons, List.prod_nil]
      ring
    have hpeEC : ([b, m, v, c, 2, 2] : List Nat).prod =
        ([b, m, v, c * 4] : List Nat).prod := by
      simp only [List.prod_cons, List.prod_nil]
      ring
    have hb1 : permPos [b, 2 * m, 2 * v, c] [0,3,1,2] n <
        ([b, 2 * m, 2 * v, c] : List Nat).prod :=
      permPos_lt_of_eq [b, 2 * m, 2 * v, c] [0,3,1,2] [0,2,3,1] [b, c, 2 * m, 2 * v] rfl
        (permInv4 [b, 2 * m, 2 * v, c] rfl [0,3,1,2] [0,2,3,1] (by decide)) n hn
    have hb2 : permPos [b, m, v, c, 2, 2] [0,1,4,2,5,3]
        (permPos [b, 2 * m, 2 * v, c] [0,3,1,2] n) < ([b, m, v, c, 2, 2] : List Nat).prod :=
      permPos_lt_of_eq [b, m, v, c, 2, 2] [0,1,4,2,5,3] [0,1,3,5,2,4] [b, m, 2, v, 2, c] rfl
        (permInv6 [b, m, v, c, 2, 2] rfl [0,1,4,2,5,3] [0,1,3,5,2,4] (by decide)) _
        (hpeAB ▸ hb1)
    have e1 : permPos [b, m, v, c * 4] [0,3,1,2] (permPos [b, c * 4, m, v] [0,2,3,1]
        (permPos [b, m, v, c, 2, 2] [0,1,4,2,5,3]
          (permPos [b, 2 * m, 2 * v, c] [0,3,1,2] n))) =
        permPos [b, m, v, c, 2, 2] [0,1,4,2,5,3]
          (permPos [b, 2 * m, 2 * v, c] [0,3,1,2] n) :=
      permPos_cancel_of_eq [b, m, v, c * 4] [0,3,1,2] [0,2,3,1] [b, c * 4, m, v] rfl
        (permInv4 [b, m, v, c * 4] rfl [0,3,1,2] [0,2,3,1] (by decide)) _
        (hpeEC ▸ hb2)
    have e2 : permPos [b, m, 2, v, 2, c] [0,1,3,5,2,4] (permPos [b, m, v, c, 2, 2]
        [0,1,4,2,5,3] (permPos [b, 2 * m, 2 * v, c] [0,3,1,2] n)) =
        permPos [b, 2 * m, 2 * v, c] [0,3,1,2] n :=
      permPos_cancel_of_eq [b, m, 2, v, 2, c] [0,1,3,5,2,4] [0,1,4,2,5,3]
        [b, m, v, c, 2, 2] rfl
        (permInv6 [b, m, 2, v, 2, c] rfl [0,1,3,5,2,4] [0,1,4,2,5,3] (by decide)) _
        (hpeAB ▸ hb1)
    have e3 : permPos [b, c, 2 * m, 2 * v] [0,2,3,1]
        (permPos [b, 2 * m, 2 * v, c] [0,3,1,2] n) = n :=
      permPos_cancel_of_eq [b, c, 2 * m, 2 * v] [0,2,3,1] [0,3,1,2] [b, 2 * m, 2 * v, c] rfl
        (permInv4 [b, c, 2 * m, 2 * v] rfl [0,2,3,1] [0,3,1,2] (by decide)) n hn
    rw [e1, e2, e3]

theorem spec_c6_witness :
    ∃ z y : Tensor,
      SqueezeLayer.forward { shape := [1,1,2,2], data := fun k => (k : Int) } = Except.ok z ∧
      z.shape = [1, 4 * 1, 2 / 2, 2 / 2] ∧
      SqueezeLayer.inverse z = Except.ok y ∧
      y.shape = [1,1,2,2] ∧
      ∀ n, n < ([1,1,2,2] : List Nat).prod → y.data n = (n : Int) :=
  spec_c6 { shape := [1,1,2,2], data := fun k => (k : Int) } 1 1 2 2 rfl (by decide)
    (by decide) (by decide) (by decide) (by decide)

theorem selectDim1_shape (t : Tensor) (idxs : List Nat) :
    (t.selectDim1 idxs).shape = t.shape.take 1 ++ [idxs.length] ++ t.shape.drop 2 := rfl

theorem selectDim1_data (t : Tensor) (idxs : List Nat) (n : Nat) :
    (t.selectDim1 idxs).data n =
      t.data (toFlat t.shape
        ((fromFlat (t.shape.take 1 ++ [idxs.length] ++ t.shape.drop 2) n).take 1 ++
          [idxs.getD ((fromFlat (t.shape.take 1 ++ [idxs.length] ++ t.shape.drop 2) n).getD 1 0) 0] ++
          (fromFlat (t.shape.take 1 ++ [idxs.length] ++ t.shape.drop 2) n).drop 2)) := rfl

theorem exists_eq_four (l : List Nat) (h : l.length = 4) :
    ∃ a b c d, l = [a, b, c, d] := by
  cases l with
  | nil => simp at h
  | cons a l =>
    cases l with
    | nil => simp at h
    | cons b l =>
      cases l with
      | nil => simp at h
      | cons c l =>
        cases l with
        | nil => simp at h
        | cons d l =>
          cases l with
          | nil => exact ⟨a, b, c, d, rfl⟩
          | cons e l =>
            simp only [List.length_cons, List.length_nil] at h
            omega

theorem argsort_map_getD (c : Nat) (p : List Nat) (hp : p.Perm (List.range c)) :
    (argsort p).map (fun j => p.getD j 0) = List.range c := by
  have hlenp : p.length = c := by simpa using hp.length_eq
  have hperm0 : (argsort p).Perm (List.range p.length) :=
    List.mergeSort_perm (List.range p.length) _
  have hmapperm : ((argsort p).map fun j => p.getD j 0).Perm
      ((List.range p.length).map fun j => p.getD j 0) := hperm0.map _
  have hrange_map : (List.range p.length).map (fun j => p.getD j 0) = p :=
    map_range_getD p p.length rfl
  have hperm : ((argsort p).map fun j => p.getD j 0).Perm (List.range c) := by
    rw [hrange_map] at hmapperm
    exact hmapperm.trans hp
  have hsorted : List.Sorted (· ≤ ·) ((argsort p).map fun j => p.getD j 0) := by
    have hpair := @List.sorted_mergeSort Nat (fun i j => decide (p.getD i 0 ≤ p.getD j 0))
      (by
        intro a b c2 hab hbc
        simp only [decide_eq_true_eq] at hab hbc ⊢
        omega)
      (by
        intro a b
        simp only [Bool.or_eq_true, decide_eq_true_eq]
        omega)
      (List.range p.length)
    rw [List.Sorted, List.pairwise_map]
    refine hpair.imp ?_
    intro a b hab
    simpa using hab
  exact List.eq_of_perm_of_sorted hperm hsorted
    ((List.pairwise_le_range c) : List.Sorted (· ≤ ·) (List.range c))

theorem argsort_length (p : List Nat) : (argsort p).length = p.length := by
  rw [argsort, List.length_mergeSort, List.length_range]

theorem argsort_inverse (c : Nat) (p : List Nat) (hp : p.Perm (List.range c)) (i : Nat)
    (hi : i < c) : p.getD ((argsort p).getD i 0) 0 = i := by
  have hlenp : p.length = c := by simpa using hp.length_eq
  have hql : (argsort p).length = c := by rw [argsort_length, hlenp]
  have h := argsort_map_getD c p hp
  have hgd : ((argsort p).map fun j => p.getD j 0).getD i 0 = (List.range c).getD i 0 := by
    rw [h]
  rw [getD_map_lt (argsort p) (fun j => p.getD j 0) i (by omega) 0 0] at hgd
  rwa [List.getD_eq_getElem (List.range c) 0 (by simpa using hi), List.getElem_range] at hgd

theorem argsort_getD_lt (c : Nat) (p : List Nat) (hp : p.Perm (List.range c)) (i : Nat)
    (hi : i < c) : (argsort p).getD i 0 < c := by
  have hlenp : p.length = c := by simpa using hp.length_eq
  have hqperm : (argsort p).Perm (List.range c) := by
    have h0 : (argsort p).Perm (List.range p.length) :=
      List.mergeSort_perm (List.range p.length) _
    rw [hlenp] at h0
    exact h0
  have hql : (argsort p).length = c := by rw [argsort_length, hlenp]
  have hmem : (argsort p).getD i 0 ∈ argsort p := by
    rw [List.getD_eq_getElem _ 0 (by omega)]
    exact List.getElem_mem _
  have := hqperm.subset hmem
  simpa using this

/-- C7: a PermutationLayer built from a permutation p of range(c) is exactly
inverted by its inverse pass (indexing with np.argsort(p)) on every 4D
tensor with c channels. -/
theorem spec_c7 (p : List Nat) (c : Nat) (hp : p.Perm (List.range c)) (x : Tensor)
    (B H W : Nat) (hsh : x.shape = [B, c, H, W]) :
    ((PermutationLayer.init p).inverse ((PermutationLayer.init p).forward x)).shape =
      x.shape ∧
    ∀ n, n < x.shape.prod →
      ((PermutationLayer.init p).inverse ((PermutationLayer.init p).forward x)).data n =
        x.data n := by
  have hlenp : p.length = c := by simpa using hp.length_eq
  have hql : (argsort p).length = c := by rw [argsort_length, hlenp]
  simp only [PermutationLayer.init, PermutationLayer.forward, PermutationLayer.inverse]
  have hxsel : (x.selectDim1 p).shape = [B, c, H, W] := by
    rw [selectDim1_shape, hsh, hlenp]
    rfl
  constructor
  · rw [selectDim1_shape, hxsel, hql, hsh]
    rfl
  · intro n hn
    rw [hsh] at hn
    rw [selectDim1_data, selectDim1_data, hxsel, hql, hsh]
    have hshapes : (([B, c, H, W] : List Nat).take 1 ++ [c] ++
        ([B, c, H, W] : List Nat).drop 2) = [B, c, H, W] := rfl
    rw [hlenp, hshapes]
    obtain ⟨i0, i1, i2, i3, hJ⟩ := exists_eq_four (fromFlat [B, c, H, W] n)
      ((fromFlat_length [B, c, H, W] n).trans rfl)
    have hJv := validIdx_fromFlat [B, c, H, W] n hn
    rw [hJ] at hJv
    simp only [validIdx, Bool.and_eq_true, decide_eq_true_eq] at hJv
    rw [hJ]
    have hKQ : (([i0, i1, i2, i3] : List Nat).take 1 ++
        [(argsort p).getD (([i0, i1, i2, i3] : List Nat).getD 1 0) 0] ++
        ([i0, i1, i2, i3] : List Nat).drop 2) = [i0, (argsort p).getD i1 0, i2, i3] := rfl
    rw [hKQ]
    have hKQv : validIdx [B, c, H, W] [i0, (argsort p).getD i1 0, i2, i3] = true := by
      simp only [validIdx, Bool.and_eq_true, decide_eq_true_eq]
      exact ⟨hJv.1, argsort_getD_lt c p hp i1 hJv.2.1, hJv.2.2⟩
    rw [fromFlat_toFlat [B, c, H, W] [i0, (argsort p).getD i1 0, i2, i3] hKQv]
    have hfinal : (([i0, (argsort p).getD i1 0, i2, i3] : List Nat).take 1 ++
        [p.getD (([i0, (argsort p).getD i1 0, i2, i3] : List Nat).getD 1 0) 0] ++
        ([i0, (argsort p).getD i1 0, i2, i3] : List Nat).drop 2) =
        [i0, p.getD ((argsort p).getD i1 0) 0, i2, i3] := rfl
    rw [hfinal, argsort_inverse c p hp i1 hJv.2.1, ← hJ,
      toFlat_fromFlat [B, c, H, W] n hn]

theorem spec_c7_witness :
    ((PermutationLayer.init [1, 0]).inverse ((PermutationLayer.init [1, 0]).forward
        { shape := [1, 2, 1, 1], data := fun k => (k : Int) })).shape = [1, 2, 1, 1] ∧
    ∀ n, n < ([1, 2, 1, 1] : List Nat).prod →
      ((PermutationLayer.init [1, 0]).inverse ((PermutationLayer.init [1, 0]).forward
          { shape := [1, 2, 1, 1], data := fun k => (k : Int) })).data n = (n : Int) :=
  spec_c7 [1, 0] 2 (by decide) { shape := [1, 2, 1, 1], data := fun k => (k : Int) }
    1 1 1 rfl
